import Mathlib

/-!
# nodezip/index.js and nodemongo/handlers/tasks.js

A shallow embedding of the two services of the repository.

* `nodezip/index.js` builds, at module load, a plain JavaScript object
  `zipCityIndex` that groups the records of `zips.json` by
  `record.city.toLowerCase()`, logs the number of Seattle records, registers
  two `GET` routes and starts listening.
* `nodemongo/handlers/tasks.js` exports a router factory over an injected
  store; its `POST /v1/tasks` handler validates a task before inserting it.

JavaScript values are modelled only as far as the code inspects them.
`String.prototype.toLowerCase` is a parameter `toLowerCase : String → String`
of every definition that calls it, so the general theorems hold for whatever
function the runtime provides; `toLowerCaseAscii` is the concrete instance used
to evaluate the code on ASCII inputs, where both agree. The router's use of
`decodeURIComponent` on a route parameter is a parameter in the same way, with
`decodeURIComponentUtf8` as the instance used for evaluation.
-/

namespace NodeZip

/-! ## Values -/

/-- A field value of a record parsed from `zips.json`. Arrays and objects are
kept as their JSON text: the code never looks inside them. -/
inductive JSON where
  | null
  | bool (b : Bool)
  | num (n : Int)
  | str (s : String)
  | compound (text : String)
  deriving DecidableEq, Repr

/-- A record of the dataset: the own properties of one parsed JSON object. -/
abbrev Record := List (String × JSON)

/-- An exception thrown by the runtime (all of them here are `TypeError`s). -/
inductive JSError where
  | typeError (message : String)
  deriving DecidableEq, Repr

/-- The names that a plain object `{}` inherits from `Object.prototype`. -/
def objectPrototypeKeys : List String :=
  ["constructor", "__proto__", "hasOwnProperty", "isPrototypeOf",
   "propertyIsEnumerable", "toLocaleString", "toString", "valueOf",
   "__defineGetter__", "__defineSetter__", "__lookupGetter__", "__lookupSetter__"]

/-- What a property read `index[key]` on the index object can evaluate to. -/
inductive JSValue where
  | undefined
  | array (records : List Record)
  | inherited (name : String)
  deriving DecidableEq, Repr

/-- JavaScript truthiness: only `undefined` is falsy among these values (an
array is truthy even when empty, and so are functions and objects). -/
def JSValue.truthy : JSValue → Bool
  | .undefined => false
  | .array _ => true
  | .inherited _ => true

/-- The own properties of the index object `{}`, in creation order. -/
abbrev IndexObject := List (String × List Record)

/-- Property read `index[key]`: an own property first, then the prototype
chain, which for an object literal is `Object.prototype`. -/
def IndexObject.get (index : IndexObject) (key : String) : JSValue :=
  match index.lookup key with
  | some records => .array records
  | none => if key ∈ objectPrototypeKeys then .inherited key else .undefined

/-- Writes the own property `key`: replaced in place when it exists, created
last otherwise. The code assigns only to keys that are own properties or that
are not inherited, for which an assignment does exactly this. -/
def IndexObject.set : IndexObject → String → List Record → IndexObject
  | [], key, records => [(key, records)]
  | (k, v) :: rest, key, records =>
    if k = key then (k, records) :: rest
    else (k, v) :: IndexObject.set rest key records

/-- Lower-casing of the ASCII letters of a string; equal to
`String.prototype.toLowerCase` on ASCII strings. -/
def toLowerCaseAscii (s : String) : String :=
  String.mk (s.data.map fun c =>
    if 65 ≤ c.toNat ∧ c.toNat ≤ 90 then Char.ofNat (c.toNat + 32) else c)

/-! ## Building the index (index.js, lines 9-17) -/

/-- The expression `record.city.toLowerCase()`: it throws when `record.city` is
`undefined` or `null`, and when it is a value without a `toLowerCase` method. -/
def cityLower (toLowerCase : String → String) (record : Record) :
    Except JSError String :=
  match record.lookup "city" with
  | none =>
    .error (.typeError "Cannot read properties of undefined (reading 'toLowerCase')")
  | some .null =>
    .error (.typeError "Cannot read properties of null (reading 'toLowerCase')")
  | some (.str s) => .ok (toLowerCase s)
  | some _ => .error (.typeError "record.city.toLowerCase is not a function")

/-- The callback handed to `zips.reduce`. When `index[cityLower]` is falsy the
key is neither an own nor an inherited property, so the assignment creates the
own property with a fresh array, into which the record is pushed. When it is
truthy, `push` is called on it: an array of the index is extended in place,
and a member inherited from `Object.prototype` has no `push`, which throws. -/
def reducer (toLowerCase : String → String) (index : IndexObject)
    (record : Record) : Except JSError IndexObject :=
  match cityLower toLowerCase record with
  | .error e => .error e
  | .ok key =>
    let zipsForCity := index.get key
    if !zipsForCity.truthy then .ok (index.set key [record])
    else
      match zipsForCity with
      | .array records => .ok (index.set key (records ++ [record]))
      | _ => .error (.typeError "zipsForCity.push is not a function")

/-- The method `Array.prototype.reduce` with an initial value, for a callback
that may throw: the first exception ends the reduction. -/
def reduce (callback : IndexObject → Record → Except JSError IndexObject) :
    IndexObject → List Record → Except JSError IndexObject
  | index, [] => .ok index
  | index, record :: rest =>
    match callback index record with
    | .error e => .error e
    | .ok next => reduce callback next rest

/-- The constant `zipCityIndex`: `zips.reduce(callback, {})`. -/
def zipCityIndex (toLowerCase : String → String) (zips : List Record) :
    Except JSError IndexObject :=
  reduce (reducer toLowerCase) [] zips

/-! ## Startup (index.js, lines 6-26 and 43-45) -/

/-- The application once `app.listen` has been called. -/
structure App where
  zipCityIndex : IndexObject
  deriving DecidableEq, Repr

/-- Module evaluation up to `app.listen`. After the index is built, line 18
reads `zipCityIndex.seattle.length`, which throws when there is no `seattle`
property. An exception during module evaluation ends the process, so
`Except.error` means that `app.listen` is never reached. -/
def startup (toLowerCase : String → String) (zips : List Record) :
    Except JSError App :=
  match zipCityIndex toLowerCase zips with
  | .error e => .error e
  | .ok index =>
    match index.get "seattle" with
    | .undefined =>
      .error (.typeError "Cannot read properties of undefined (reading 'length')")
    | _ => .ok ⟨index⟩

/-! ## Request handling (index.js, lines 25-39) -/

/-- What a request is answered with: `res.send` under a status, `res.json`,
the default "Cannot GET" responder of Express when no route matches
(`unrouted`), or its default error handler under the status of an error raised
by the router (`failed`). -/
inductive Response where
  | send (status : Nat) (text : String)
  | json (body : JSValue)
  | unrouted
  | failed (status : Nat)
  deriving DecidableEq, Repr

/-- The handler of `GET /zips/city/:cityName`. -/
def cityHandler (toLowerCase : String → String) (index : IndexObject)
    (cityName : String) : Response :=
  let zipsForCity := index.get (toLowerCase cityName)
  if !zipsForCity.truthy then .send 404 "invalid city name"
  else .json zipsForCity

/-- The handler of `GET /hello/:name`. -/
def helloHandler (name : String) : Response :=
  .send 200 ("Hello " ++ name ++ "!")

/-- Request methods, as far as the middleware and the router tell them apart. -/
inductive Method where
  | GET
  | HEAD
  | OPTIONS
  | other (name : String)
  deriving DecidableEq, Repr

/-- A request: its method and the segments of its path as received, before
any percent-decoding, split at `/` (one trailing slash dropped). -/
structure Request where
  method : Method
  path : List String
  deriving DecidableEq, Repr

/-- A literal segment of a route pattern is matched against the segment as
received, without regard to ASCII case (Express leaves
`case sensitive routing` off). -/
def literalMatches (literal segment : String) : Bool :=
  toLowerCaseAscii segment == literal

/-- The value of a hexadecimal digit. -/
def hexDigit (c : Char) : Option Nat :=
  if 48 ≤ c.toNat ∧ c.toNat ≤ 57 then some (c.toNat - 48)
  else if 97 ≤ c.toNat ∧ c.toNat ≤ 102 then some (c.toNat - 87)
  else if 65 ≤ c.toNat ∧ c.toNat ≤ 70 then some (c.toNat - 55)
  else none

/-- First pass of the decoding: every `%XX` becomes the octet it denotes, and
a `%` without two hexadecimal digits after it is an error. -/
def percentOctets : List Char → Option (List (Char ⊕ Nat))
  | [] => some []
  | c :: rest =>
    if c = '%' then
      match rest with
      | high :: low :: rest2 =>
        match hexDigit high, hexDigit low, percentOctets rest2 with
        | some a, some b, some units => some (.inr (16 * a + b) :: units)
        | _, _, _ => none
      | _ => none
    else
      match percentOctets rest with
      | some units => some (.inl c :: units)
      | none => none

/-- The payload of a continuation octet `10xxxxxx` of UTF-8. -/
def continuationBits (unit : Char ⊕ Nat) : Option Nat :=
  match unit with
  | .inr b => if 128 ≤ b ∧ b < 192 then some (b - 128) else none
  | .inl _ => none

/-- Second pass of the decoding: the octets are read as UTF-8; an octet
sequence that is not the shortest encoding of a Unicode scalar value is an
error. -/
def utf8Decode : List (Char ⊕ Nat) → Option (List Char)
  | [] => some []
  | .inl c :: rest =>
    match utf8Decode rest with
    | some cs => some (c :: cs)
    | none => none
  | .inr b :: rest =>
    if b < 128 then
      match utf8Decode rest with
      | some cs => some (Char.ofNat b :: cs)
      | none => none
    else if 192 ≤ b ∧ b < 224 then
      match rest with
      | u1 :: rest2 =>
        match continuationBits u1, utf8Decode rest2 with
        | some c1, some cs =>
          let v := (b - 192) * 64 + c1
          if 128 ≤ v then some (Char.ofNat v :: cs) else none
        | _, _ => none
      | _ => none
    else if 224 ≤ b ∧ b < 240 then
      match rest with
      | u1 :: u2 :: rest2 =>
        match continuationBits u1, continuationBits u2, utf8Decode rest2 with
        | some c1, some c2, some cs =>
          let v := (b - 224) * 4096 + c1 * 64 + c2
          if 2048 ≤ v ∧ ¬ (55296 ≤ v ∧ v < 57344) then some (Char.ofNat v :: cs)
          else none
        | _, _, _ => none
      | _ => none
    else if 240 ≤ b ∧ b < 248 then
      match rest with
      | u1 :: u2 :: u3 :: rest2 =>
        match continuationBits u1, continuationBits u2, continuationBits u3,
          utf8Decode rest2 with
        | some c1, some c2, some c3, some cs =>
          let v := (b - 240) * 262144 + c1 * 4096 + c2 * 64 + c3
          if 65536 ≤ v ∧ v < 1114112 then some (Char.ofNat v :: cs) else none
        | _, _, _, _ => none
      | _ => none
    else none

/-- Percent-decoding as `decodeURIComponent` does it: `none` stands for the
`URIError` it throws on a malformed escape. The concrete instance used to
evaluate the router. -/
def decodeURIComponentUtf8 (s : String) : Option String :=
  match percentOctets s.data with
  | none => none
  | some units =>
    match utf8Decode units with
    | none => none
    | some cs => some (String.mk cs)

/-- The application's middleware and routes in registration order: `cors()`
answers a preflight `OPTIONS` request itself, the two `app.get` routes take
`GET` and `HEAD`, and a request that matches nothing is left to the default
"Cannot GET" responder of Express (`Response.unrouted`). The router matches the
literal segments of a pattern against the path as received and hands the
handler the parameter segment decoded by `decodeURIComponent`, which is a
parameter here as `toLowerCase` is; when the decoding throws, the router raises
an error of status 400. -/
def dispatch (toLowerCase : String → String)
    (decodeURIComponent : String → Option String) (app : App) (req : Request) :
    Response :=
  match req.method with
  | .OPTIONS => .send 204 ""
  | .other _ => .unrouted
  | _ =>
    match req.path with
    | [a, b, segment] =>
      if literalMatches "zips" a && literalMatches "city" b && segment != "" then
        match decodeURIComponent segment with
        | some cityName => cityHandler toLowerCase app.zipCityIndex cityName
        | none => .failed 400
      else .unrouted
    | [a, segment] =>
      if literalMatches "hello" a && segment != "" then
        match decodeURIComponent segment with
        | some name => helloHandler name
        | none => .failed 400
      else .unrouted
    | _ => .unrouted

/-! ## Specification-side notions -/

/-- The normalised city key of a record: the lower-cased `city` when that field
is a string, nothing otherwise. -/
def cityKey (toLowerCase : String → String) (record : Record) : Option String :=
  match record.lookup "city" with
  | some (.str s) => some (toLowerCase s)
  | _ => none

/-- The records of the dataset whose normalised city key is `key`, in dataset
order. -/
def recordsFor (toLowerCase : String → String) (zips : List Record)
    (key : String) : List Record :=
  zips.filter fun record => decide (cityKey toLowerCase record = some key)

/-- An own property holds a bucket only when the bucket has a record. -/
def asBucket : List Record → Option (List Record)
  | [] => none
  | record :: rest => some (record :: rest)

/-- The index groups exactly the records `seen`. -/
def Groups (toLowerCase : String → String) (index : IndexObject)
    (seen : List Record) : Prop :=
  ∀ key, index.lookup key = asBucket (recordsFor toLowerCase seen key)

/-- No own property of the index shadows a name of `Object.prototype`. -/
def NoShadowing (index : IndexObject) : Prop :=
  ∀ key ∈ objectPrototypeKeys, index.lookup key = none

/-! ## Sample data -/

/-- The record `{city: "Seattle", zipCode: "98101"}`. -/
def seattle98101 : Record := [("city", .str "Seattle"), ("zipCode", .str "98101")]

/-- The record `{city: "seattle", zipCode: "98102"}`. -/
def seattle98102 : Record := [("city", .str "seattle"), ("zipCode", .str "98102")]

/-- The record `{city: "X", zip: "1"}`. -/
def x1 : Record := [("city", .str "X"), ("zip", .str "1")]

/-- The record `{city: "X", zip: "2"}`. -/
def x2 : Record := [("city", .str "X"), ("zip", .str "2")]

/-- The record `{city: "Constructor", zipCode: "00001"}`. -/
def constructor00001 : Record :=
  [("city", .str "Constructor"), ("zipCode", .str "00001")]

/-- The record `{city: "", zipCode: "00002"}`. -/
def blank00002 : Record := [("city", .str ""), ("zipCode", .str "00002")]

/-- The record `{zipCode: "00003"}`, which has no `city`. -/
def cityless00003 : Record := [("zipCode", .str "00003")]

end NodeZip

namespace NodeMongo

/-! ## nodemongo/handlers/tasks.js

The `Task` class (`models/tasks/task.js`) and the store are supplied from
outside the module, so the handler is modelled over an environment that gives
their behaviour. A JavaScript object is mutable: a method call may change the
task it is called on, so `validate` and `insert` return the state in which they
leave the task object. The methods of the Express response are taken not to
throw. -/

/-- The collaborators of the handler. `newTask` is `new Task(req.body)`;
`validate` is `task.validate()`, whose result is `none` when the returned value
is falsy; `message` reads `err.message`; `insert` is `await store.insert(task)`,
giving the store afterwards, the task object afterwards, and the rejection if
there is one. -/
structure Env (Body Task Invalid Err Store : Type) where
  newTask : Body → Except Err Task
  validate : Task → Task × Except Err (Option Invalid)
  message : Invalid → String
  insert : Store → Task → Store × Task × Option Err

/-- What the handler does with the response object or with `next`. -/
inductive Reply (Task Err : Type) where
  | status400 (text : String)
  | json (task : Task)
  | next (err : Err)
  deriving DecidableEq, Repr

/-- The effect of one request: the store afterwards, the arguments of the calls
of `store.insert` in order, and the reply. -/
structure Outcome (Task Err Store : Type) where
  store : Store
  inserts : List Task
  reply : Reply Task Err

/-- The handler of `POST /v1/tasks` (tasks.js, lines 21-34). -/
def postTask {Body Task Invalid Err Store : Type}
    (env : Env Body Task Invalid Err Store) (store : Store) (body : Body) :
    Outcome Task Err Store :=
  match env.newTask body with
  | .error e => ⟨store, [], .next e⟩
  | .ok task =>
    match env.validate task with
    | (_, .error e) => ⟨store, [], .next e⟩
    | (_, .ok (some err)) => ⟨store, [], .status400 (env.message err)⟩
    | (task, .ok none) =>
      match env.insert store task with
      | (store, _, some e) => ⟨store, [task], .next e⟩
      | (store, inserted, none) => ⟨store, [task], .json inserted⟩

/-! ## Sample environment -/

/-- A task with a title and, once stored, an identifier. -/
structure SampleTask where
  title : String
  id : Option Nat
  deriving DecidableEq, Repr

/-- A store that is full at three tasks, and a `Task` whose title is required. -/
def sampleEnv : Env String SampleTask String String (List SampleTask) where
  newTask := fun body => .ok ⟨body, none⟩
  validate := fun task =>
    (task, .ok (if task.title = "" then some "title is required" else none))
  message := fun err => err
  insert := fun store task =>
    if store.length < 3 then
      (store ++ [{ task with id := some store.length }],
       { task with id := some store.length }, none)
    else (store, task, some "store is full")

end NodeMongo

namespace NodeZip

/-! ## Lemmas on the index object -/

theorem lookup_cons_eq (k0 : String) (v0 : List Record) (rest : IndexObject)
    (k : String) :
    List.lookup k ((k0, v0) :: rest) =
      if k = k0 then some v0 else List.lookup k rest := by
  rw [List.lookup_cons]
  by_cases h : k = k0
  · have hb : (k == k0) = true := by simpa using h
    simp [hb, h]
  · have hb : (k == k0) = false := by simpa using h
    simp [hb, h]

theorem lookup_set (index : IndexObject) (key : String) (records : List Record)
    (k : String) :
    List.lookup k (index.set key records) =
      if k = key then some records else List.lookup k index := by
  induction index with
  | nil =>
    simp only [IndexObject.set, lookup_cons_eq, List.lookup_nil]
  | cons head rest ih =>
    obtain ⟨k0, v0⟩ := head
    by_cases h0 : k0 = key
    · subst h0
      simp only [IndexObject.set, if_true, lookup_cons_eq]
      by_cases h1 : k = k0 <;> simp [h1]
    · simp only [IndexObject.set, h0, if_false, lookup_cons_eq, ih]
      by_cases h1 : k = k0
      · have h2 : ¬ k = key := fun e => h0 (h1 ▸ e)
        simp [h1, h0]
      · simp [h1]

theorem get_eq_array_iff (index : IndexObject) (key : String)
    (records : List Record) :
    index.get key = .array records ↔ index.lookup key = some records := by
  unfold IndexObject.get
  cases h : index.lookup key with
  | none => by_cases hk : key ∈ objectPrototypeKeys <;> simp [hk]
  | some b => simp

theorem get_eq_undefined_iff (index : IndexObject) (key : String) :
    index.get key = .undefined ↔
      index.lookup key = none ∧ key ∉ objectPrototypeKeys := by
  unfold IndexObject.get
  cases h : index.lookup key with
  | none => by_cases hk : key ∈ objectPrototypeKeys <;> simp [hk]
  | some b => simp

theorem get_eq_inherited_iff (index : IndexObject) (key name : String) :
    index.get key = .inherited name ↔
      index.lookup key = none ∧ key ∈ objectPrototypeKeys ∧ name = key := by
  unfold IndexObject.get
  cases h : index.lookup key with
  | none =>
    by_cases hk : key ∈ objectPrototypeKeys
    · simp [hk, eq_comm]
    · simp [hk]
  | some b => simp

theorem asBucket_eq_none_iff (records : List Record) :
    asBucket records = none ↔ records = [] := by
  cases records <;> simp [asBucket]

theorem asBucket_eq_some_iff (records bucket : List Record) :
    asBucket records = some bucket ↔ records = bucket ∧ bucket ≠ [] := by
  cases records with
  | nil =>
    simp only [asBucket]
    constructor
    · intro h; cases h
    · rintro ⟨h, hne⟩; exact absurd h.symm hne
  | cons r rest =>
    simp only [asBucket, Option.some.injEq]
    constructor
    · intro h; subst h; exact ⟨rfl, by simp⟩
    · intro h; exact h.1

/-! ## Lemmas on the reduction -/

theorem cityLower_eq_ok_iff (toLowerCase : String → String) (record : Record)
    (key : String) :
    cityLower toLowerCase record = .ok key ↔
      cityKey toLowerCase record = some key := by
  unfold cityLower cityKey
  cases h : record.lookup "city" with
  | none => simp
  | some v => cases v <;> simp

theorem cityLower_error_of_cityKey_none (toLowerCase : String → String)
    (record : Record) (h : cityKey toLowerCase record = none) :
    ∃ e, cityLower toLowerCase record = .error e := by
  cases hc : cityLower toLowerCase record with
  | error e => exact ⟨e, rfl⟩
  | ok key =>
    rw [cityLower_eq_ok_iff] at hc
    rw [h] at hc
    cases hc

theorem recordsFor_append (toLowerCase : String → String)
    (seen : List Record) (record : Record) (key : String) :
    recordsFor toLowerCase (seen ++ [record]) key =
      if cityKey toLowerCase record = some key
      then recordsFor toLowerCase seen key ++ [record]
      else recordsFor toLowerCase seen key := by
  unfold recordsFor
  by_cases h : cityKey toLowerCase record = some key
  · simp [List.filter_append, List.filter, h]
  · simp [List.filter_append, List.filter, h]

theorem reducer_ok_cityKey (toLowerCase : String → String)
    (index next : IndexObject) (record : Record)
    (h : reducer toLowerCase index record = .ok next) :
    ∃ key, cityKey toLowerCase record = some key ∧
      (index.lookup key = none → key ∉ objectPrototypeKeys) ∧
      next = index.set key ((index.lookup key).getD [] ++ [record]) := by
  unfold reducer at h
  cases hc : cityLower toLowerCase record with
  | error e => simp [hc] at h
  | ok key =>
    refine ⟨key, (cityLower_eq_ok_iff _ _ _).1 hc, ?_⟩
    simp only [hc] at h
    cases hg : index.get key with
    | undefined =>
      obtain ⟨hl, hp⟩ := (get_eq_undefined_iff _ _).1 hg
      simp only [hg, JSValue.truthy, Bool.not_false, if_true, Except.ok.injEq] at h
      exact ⟨fun _ => hp, by simp [hl, ← h]⟩
    | array bucket =>
      have hl := (get_eq_array_iff _ _ _).1 hg
      simp [hg, JSValue.truthy] at h
      exact ⟨fun hn => by simp [hl] at hn, by simp [hl, ← h]⟩
    | inherited name => simp [hg, JSValue.truthy] at h

theorem reducer_ok_of_cityKey (toLowerCase : String → String)
    (index : IndexObject) (record : Record) (key : String)
    (hk : cityKey toLowerCase record = some key)
    (hp : key ∉ objectPrototypeKeys) :
    reducer toLowerCase index record =
      .ok (index.set key ((index.lookup key).getD [] ++ [record])) := by
  have hc := (cityLower_eq_ok_iff toLowerCase record key).2 hk
  unfold reducer
  simp only [hc]
  cases hl : index.lookup key with
  | none =>
    have hg : index.get key = .undefined := (get_eq_undefined_iff _ _).2 ⟨hl, hp⟩
    simp [hg, JSValue.truthy]
  | some bucket =>
    have hg : index.get key = .array bucket := (get_eq_array_iff _ _ _).2 hl
    simp [hg, JSValue.truthy]

theorem groups_set (toLowerCase : String → String) (index : IndexObject)
    (seen : List Record) (record : Record) (key : String)
    (hk : cityKey toLowerCase record = some key)
    (hg : Groups toLowerCase index seen) :
    Groups toLowerCase
      (index.set key ((index.lookup key).getD [] ++ [record]))
      (seen ++ [record]) := by
  intro k
  rw [lookup_set, recordsFor_append]
  by_cases hkk : k = key
  · subst hkk
    simp only [if_true, hk]
    have hgk := hg k
    cases hr : recordsFor toLowerCase seen k with
    | nil =>
      rw [hr] at hgk
      simp [hgk, asBucket]
    | cons r rest =>
      rw [hr] at hgk
      simp [hgk, asBucket]
  · have hne : ¬ cityKey toLowerCase record = some k := by
      rw [hk]
      intro e
      exact hkk (Option.some.inj e).symm
    simp only [hkk, if_false, hne]
    exact hg k

theorem reduce_groups (toLowerCase : String → String) (rest : List Record) :
    ∀ (index result : IndexObject) (seen : List Record),
      Groups toLowerCase index seen →
      reduce (reducer toLowerCase) index rest = .ok result →
      Groups toLowerCase result (seen ++ rest) := by
  induction rest with
  | nil =>
    intro index result seen hg h
    simp only [reduce, Except.ok.injEq] at h
    subst h
    simpa using hg
  | cons record rest ih =>
    intro index result seen hg h
    simp only [reduce] at h
    cases hs : reducer toLowerCase index record with
    | error e => simp [hs] at h
    | ok next =>
      simp only [hs] at h
      obtain ⟨key, hk, _, hnext⟩ := reducer_ok_cityKey _ _ _ _ hs
      have hg2 := groups_set toLowerCase index seen record key hk hg
      rw [← hnext] at hg2
      have := ih next result (seen ++ [record]) hg2 h
      simpa using this

theorem groups_empty (toLowerCase : String → String) :
    Groups toLowerCase [] [] := by
  intro key
  simp [recordsFor, asBucket]

/-- The own properties of a built index are exactly the non-empty groups of
the dataset. -/
theorem zipCityIndex_lookup (toLowerCase : String → String)
    (zips : List Record) (index : IndexObject)
    (h : zipCityIndex toLowerCase zips = .ok index) (key : String) :
    index.lookup key = asBucket (recordsFor toLowerCase zips key) := by
  have := reduce_groups toLowerCase zips [] index [] (groups_empty toLowerCase) h
  simpa using this key

theorem reducer_ok_noShadowing (toLowerCase : String → String)
    (index next : IndexObject) (record : Record)
    (hn : NoShadowing index)
    (h : reducer toLowerCase index record = .ok next) :
    (∃ key, cityKey toLowerCase record = some key ∧
      key ∉ objectPrototypeKeys) ∧ NoShadowing next := by
  obtain ⟨key, hk, hp, hnext⟩ := reducer_ok_cityKey _ _ _ _ h
  have hkey : key ∉ objectPrototypeKeys := fun hmem => hp (hn key hmem) hmem
  refine ⟨⟨key, hk, hkey⟩, ?_⟩
  intro k hmem
  rw [hnext, lookup_set]
  have hne : ¬ k = key := fun e => hkey (e ▸ hmem)
  simp only [hne, if_false]
  exact hn k hmem

theorem reduce_ok_all (toLowerCase : String → String) (rest : List Record) :
    ∀ (index result : IndexObject), NoShadowing index →
      reduce (reducer toLowerCase) index rest = .ok result →
      ∀ record ∈ rest, ∃ key, cityKey toLowerCase record = some key ∧
        key ∉ objectPrototypeKeys := by
  induction rest with
  | nil => intro _ _ _ _ record hr; cases hr
  | cons first rest ih =>
    intro index result hn h record hr
    simp only [reduce] at h
    cases hs : reducer toLowerCase index first with
    | error e => simp [hs] at h
    | ok next =>
      simp only [hs] at h
      obtain ⟨hfirst, hn2⟩ := reducer_ok_noShadowing _ _ _ _ hn hs
      rcases List.mem_cons.1 hr with rfl | hr
      · exact hfirst
      · exact ih next result hn2 h record hr

theorem reduce_ok_of_all (toLowerCase : String → String) (rest : List Record) :
    ∀ (index : IndexObject),
      (∀ record ∈ rest, ∃ key, cityKey toLowerCase record = some key ∧
        key ∉ objectPrototypeKeys) →
      ∃ result, reduce (reducer toLowerCase) index rest = .ok result := by
  induction rest with
  | nil => intro index _; exact ⟨index, rfl⟩
  | cons first rest ih =>
    intro index hall
    obtain ⟨key, hk, hp⟩ := hall first (List.mem_cons_self _ _)
    simp only [reduce, reducer_ok_of_cityKey toLowerCase index first key hk hp]
    exact ih _ fun record hr => hall record (List.mem_cons_of_mem _ hr)

/-- The build succeeds exactly on the datasets in which every record has a
string city whose lower-case form is not a name inherited from
`Object.prototype`. -/
theorem zipCityIndex_ok_iff (toLowerCase : String → String)
    (zips : List Record) :
    (∃ index, zipCityIndex toLowerCase zips = .ok index) ↔
      ∀ record ∈ zips, ∃ key, cityKey toLowerCase record = some key ∧
        key ∉ objectPrototypeKeys := by
  constructor
  · rintro ⟨index, h⟩
    exact reduce_ok_all toLowerCase zips [] index (fun _ _ => rfl) h
  · intro hall
    exact reduce_ok_of_all toLowerCase zips [] hall

/-! ## Lemmas on the handler -/

theorem cityHandler_of_array (toLowerCase : String → String)
    (index : IndexObject) (cityName : String) (bucket : List Record)
    (h : index.get (toLowerCase cityName) = .array bucket) :
    cityHandler toLowerCase index cityName = .json (.array bucket) := by
  simp [cityHandler, h, JSValue.truthy]

theorem cityHandler_of_undefined (toLowerCase : String → String)
    (index : IndexObject) (cityName : String)
    (h : index.get (toLowerCase cityName) = .undefined) :
    cityHandler toLowerCase index cityName = .send 404 "invalid city name" := by
  simp [cityHandler, h, JSValue.truthy]

theorem cityHandler_of_inherited (toLowerCase : String → String)
    (index : IndexObject) (cityName name : String)
    (h : index.get (toLowerCase cityName) = .inherited name) :
    cityHandler toLowerCase index cityName = .json (.inherited name) := by
  simp [cityHandler, h, JSValue.truthy]

/-- On a built index, a property read yields the group of the key when the
group has a record, the inherited member when the key names one, and
`undefined` otherwise. -/
theorem zipCityIndex_get (toLowerCase : String → String)
    (zips : List Record) (index : IndexObject)
    (h : zipCityIndex toLowerCase zips = .ok index) (key : String) :
    index.get key =
      if recordsFor toLowerCase zips key ≠ [] then
        .array (recordsFor toLowerCase zips key)
      else if key ∈ objectPrototypeKeys then .inherited key
      else .undefined := by
  have hl := zipCityIndex_lookup toLowerCase zips index h key
  unfold IndexObject.get
  cases hr : recordsFor toLowerCase zips key with
  | nil =>
    rw [hr] at hl
    simp [hl, asBucket]
  | cons r rest =>
    rw [hr] at hl
    simp [hl, asBucket]

theorem mem_recordsFor (toLowerCase : String → String) (zips : List Record)
    (key : String) (record : Record) :
    record ∈ recordsFor toLowerCase zips key ↔
      record ∈ zips ∧ cityKey toLowerCase record = some key := by
  simp [recordsFor, List.mem_filter]

theorem count_recordsFor (toLowerCase : String → String) (zips : List Record)
    (key : String) (record : Record)
    (h : cityKey toLowerCase record = some key) :
    (recordsFor toLowerCase zips key).count record = zips.count record := by
  unfold recordsFor
  exact List.count_filter (by simpa using h)

/-- Bucket completeness on the datasets for which an index is built: every
record sits in the bucket of its own key, once per occurrence, and in no other
bucket. -/
theorem built_buckets_complete (toLowerCase : String → String)
    (zips : List Record) (index : IndexObject)
    (h : zipCityIndex toLowerCase zips = .ok index)
    (record : Record) (hr : record ∈ zips) :
    ∃ key bucket, cityKey toLowerCase record = some key ∧
      index.get key = .array bucket ∧
      bucket.count record = zips.count record ∧
      ∀ other bucket2, other ≠ key → index.get other = .array bucket2 →
        record ∉ bucket2 := by
  obtain ⟨key, hk, _⟩ :=
    reduce_ok_all toLowerCase zips [] index (fun _ _ => rfl) h record hr
  have hmem : record ∈ recordsFor toLowerCase zips key :=
    (mem_recordsFor _ _ _ _).2 ⟨hr, hk⟩
  have hne : recordsFor toLowerCase zips key ≠ [] := List.ne_nil_of_mem hmem
  refine ⟨key, recordsFor toLowerCase zips key, hk, ?_, ?_, ?_⟩
  · rw [zipCityIndex_get toLowerCase zips index h key]
    simp [hne]
  · exact count_recordsFor _ _ _ _ hk
  · intro other bucket2 hother hget hin
    have hl := (get_eq_array_iff _ _ _).1 hget
    rw [zipCityIndex_lookup toLowerCase zips index h other] at hl
    obtain ⟨hb, _⟩ := (asBucket_eq_some_iff _ _).1 hl
    rw [← hb] at hin
    have := ((mem_recordsFor _ _ _ _).1 hin).2
    rw [hk] at this
    exact hother (Option.some.inj this).symm

/-- The outcome of a lookup on a built index, for a query whose lower-case
form is not a name inherited from `Object.prototype`: 404 exactly when no
record has that key, the whole group otherwise. -/
theorem built_lookup_miss_iff (toLowerCase : String → String)
    (zips : List Record) (index : IndexObject)
    (h : zipCityIndex toLowerCase zips = .ok index) (cityName : String)
    (hp : toLowerCase cityName ∉ objectPrototypeKeys) :
    (cityHandler toLowerCase index cityName = .send 404 "invalid city name" ↔
      ∀ record ∈ zips, cityKey toLowerCase record ≠ some (toLowerCase cityName)) ∧
    (cityHandler toLowerCase index cityName ≠ .send 404 "invalid city name" →
      cityHandler toLowerCase index cityName =
        .json (.array (recordsFor toLowerCase zips (toLowerCase cityName)))) := by
  have hg := zipCityIndex_get toLowerCase zips index h (toLowerCase cityName)
  by_cases hne : recordsFor toLowerCase zips (toLowerCase cityName) = []
  · simp only [hne, ne_eq, not_true_eq_false, if_false, hp] at hg
    have h404 := cityHandler_of_undefined toLowerCase index cityName hg
    refine ⟨⟨fun _ record hr hk => ?_, fun _ => h404⟩, fun hno => absurd h404 hno⟩
    have : record ∈ recordsFor toLowerCase zips (toLowerCase cityName) :=
      (mem_recordsFor _ _ _ _).2 ⟨hr, hk⟩
    rw [hne] at this
    cases this
  · simp only [ne_eq, hne, not_false_eq_true, if_true] at hg
    have hjson := cityHandler_of_array toLowerCase index cityName _ hg
    refine ⟨⟨fun h404 => ?_, fun hall => ?_⟩, fun _ => hjson⟩
    · rw [hjson] at h404
      cases h404
    · exfalso
      obtain ⟨record, hmem⟩ := List.exists_mem_of_ne_nil _ hne
      obtain ⟨hr, hk⟩ := (mem_recordsFor _ _ _ _).1 hmem
      exact hall record hr hk

/-- Every bucket of a built index has a record. -/
theorem built_buckets_nonempty (toLowerCase : String → String)
    (zips : List Record) (index : IndexObject)
    (h : zipCityIndex toLowerCase zips = .ok index)
    (key : String) (bucket : List Record)
    (hget : index.get key = .array bucket) : bucket ≠ [] := by
  have hl := (get_eq_array_iff _ _ _).1 hget
  rw [zipCityIndex_lookup toLowerCase zips index h key] at hl
  exact ((asBucket_eq_some_iff _ _).1 hl).2

theorem startup_ok_iff (toLowerCase : String → String) (zips : List Record)
    (app : App) :
    startup toLowerCase zips = .ok app ↔
      zipCityIndex toLowerCase zips = .ok app.zipCityIndex ∧
      app.zipCityIndex.get "seattle" ≠ .undefined := by
  unfold startup
  cases hz : zipCityIndex toLowerCase zips with
  | error e => simp
  | ok index =>
    obtain ⟨index2⟩ := app
    simp only [Except.ok.injEq, ne_eq]
    constructor
    · intro he
      cases hg : index.get "seattle" with
      | undefined => simp [hg] at he
      | array bucket =>
        simp only [hg, Except.ok.injEq, App.mk.injEq] at he
        subst he
        simp [hg]
      | inherited name =>
        simp only [hg, Except.ok.injEq, App.mk.injEq] at he
        subst he
        simp [hg]
    · rintro ⟨he, hg⟩
      subst he
      cases hg2 : index.get "seattle" with
      | undefined => exact absurd hg2 hg
      | array bucket => rfl
      | inherited name => rfl

theorem dispatch_zips_city (toLowerCase : String → String)
    (decodeURIComponent : String → Option String) (app : App)
    (segment cityName : String) (hne : segment ≠ "")
    (hd : decodeURIComponent segment = some cityName) :
    dispatch toLowerCase decodeURIComponent app
        ⟨.GET, ["zips", "city", segment]⟩ =
      cityHandler toLowerCase app.zipCityIndex cityName := by
  have hz : literalMatches "zips" "zips" = true := by decide
  have hc : literalMatches "city" "city" = true := by decide
  simp [dispatch, hz, hc, hne, hd]

theorem dispatch_lookup_unrouted (toLowerCase : String → String)
    (decodeURIComponent : String → Option String) (app : App)
    (rest : List String) :
    dispatch toLowerCase decodeURIComponent app ⟨.GET, "lookup" :: rest⟩ =
      .unrouted := by
  have hz : literalMatches "zips" "lookup" = false := by decide
  have hh : literalMatches "hello" "lookup" = false := by decide
  match rest with
  | [] => simp [dispatch]
  | [b] => simp [dispatch, hh]
  | [b, c] => simp [dispatch, hz]
  | b :: c :: d :: more => simp [dispatch]

/-! ## The claims -/

/-- C1 (bucket completeness) fails on the code: a record whose city is
"Constructor" has the key "constructor", which the empty index object inherits
from `Object.prototype`; the callback then calls `push` on the inherited
function and the reduction throws, so no index and no bucket exist. -/
theorem constructor_city_aborts_build :
    cityKey toLowerCaseAscii constructor00001 = some "constructor" ∧
    zipCityIndex toLowerCaseAscii [seattle98101, constructor00001] =
      .error (.typeError "zipsForCity.push is not a function") :=
  ⟨by rfl, by rfl⟩

/-- C2 (order preservation): in a built index, the bucket under a key is the
subsequence of the dataset made of the records with that lower-cased city, in
dataset order. For `[x1, x2]` the lookup of "x" answers `x1` then `x2`; for the
two Seattle records that differ in case the index has the single bucket
"seattle", holding both in load order. -/
theorem bucket_is_dataset_subsequence (toLowerCase : String → String)
    (zips : List Record) :
    (∀ index, zipCityIndex toLowerCase zips = .ok index →
      ∀ key bucket, index.get key = .array bucket →
        bucket = zips.filter fun record =>
          decide (cityKey toLowerCase record = some key)) ∧
    (∃ index, zipCityIndex toLowerCaseAscii [x1, x2] = .ok index ∧
      cityHandler toLowerCaseAscii index "x" = .json (.array [x1, x2])) ∧
    zipCityIndex toLowerCaseAscii [seattle98101, seattle98102] =
      .ok [("seattle", [seattle98101, seattle98102])] := by
  refine ⟨?_, ⟨[("x", [x1, x2])], by rfl, by rfl⟩, by rfl⟩
  intro index h key bucket hget
  have hl := (get_eq_array_iff _ _ _).1 hget
  rw [zipCityIndex_lookup toLowerCase zips index h key] at hl
  exact ((asBucket_eq_some_iff _ _).1 hl).1.symm

theorem bucket_is_dataset_subsequence_witness :
    zipCityIndex toLowerCaseAscii [seattle98101, x1, seattle98102] =
      .ok [("seattle", [seattle98101, seattle98102]), ("x", [x1])] ∧
    [seattle98101, seattle98102] =
      [seattle98101, x1, seattle98102].filter fun record =>
        decide (cityKey toLowerCaseAscii record = some "seattle") :=
  ⟨by rfl,
   (bucket_is_dataset_subsequence toLowerCaseAscii
      [seattle98101, x1, seattle98102]).1
     [("seattle", [seattle98101, seattle98102]), ("x", [x1])] (by rfl)
     "seattle" [seattle98101, seattle98102] (by rfl)⟩

/-- C3 (case-insensitive lookup): on every index, two query strings with the
same lower-case form get the same response from the lookup handler. -/
theorem lookup_case_insensitive (toLowerCase : String → String)
    (index : IndexObject) (q1 q2 : String)
    (h : toLowerCase q1 = toLowerCase q2) :
    cityHandler toLowerCase index q1 = cityHandler toLowerCase index q2 := by
  unfold cityHandler
  rw [h]

theorem lookup_case_insensitive_witness :
    toLowerCaseAscii "SEATTLE" = toLowerCaseAscii "SeAttLe" ∧
    cityHandler toLowerCaseAscii [("seattle", [seattle98101, seattle98102])]
        "SEATTLE" =
      cityHandler toLowerCaseAscii [("seattle", [seattle98101, seattle98102])]
        "SeAttLe" :=
  ⟨by decide, lookup_case_insensitive toLowerCaseAscii _ "SEATTLE" "SeAttLe" (by decide)⟩

/-- C4 (miss behaviour) fails on the code: with the dataset `[seattle98101]`
the server starts, no record has the key "constructor", and yet
`GET /zips/city/constructor` is answered with `res.json` of the function
inherited from `Object.prototype` instead of the 404. -/
theorem constructor_query_not_404 :
    startup toLowerCaseAscii [seattle98101] =
      .ok ⟨[("seattle", [seattle98101])]⟩ ∧
    recordsFor toLowerCaseAscii [seattle98101]
      (toLowerCaseAscii "constructor") = [] ∧
    dispatch toLowerCaseAscii decodeURIComponentUtf8
        ⟨[("seattle", [seattle98101])]⟩
        ⟨.GET, ["zips", "city", "constructor"]⟩ =
      .json (.inherited "constructor") :=
  ⟨by rfl, by rfl, by rfl⟩

/-- C5 (no empty bucket) fails on the code in its last part: with the dataset
`[seattle98101]` no record has the key "__proto__", and the lookup of
"__proto__" is answered with `res.json` of `Object.prototype`, an object
without own properties, instead of the 404. -/
theorem proto_query_not_404 :
    zipCityIndex toLowerCaseAscii [seattle98101] =
      .ok [("seattle", [seattle98101])] ∧
    (∀ record ∈ [seattle98101],
      cityKey toLowerCaseAscii record ≠ some (toLowerCaseAscii "__proto__")) ∧
    cityHandler toLowerCaseAscii [("seattle", [seattle98101])] "__proto__" =
      .json (.inherited "__proto__") := by
  refine ⟨by rfl, ?_, by rfl⟩
  intro record hr
  rw [List.mem_singleton.1 hr]
  decide

/-- C6 (fail fast on a missing city): when some record of the dataset has no
`city` field, wherever it sits, building the index throws, no index results
and `app.listen` is not reached. -/
theorem missing_city_aborts_startup (toLowerCase : String → String)
    (zips : List Record)
    (h : ∃ record ∈ zips, record.lookup "city" = none) :
    (∃ e, zipCityIndex toLowerCase zips = .error e) ∧
    (∃ e, startup toLowerCase zips = .error e) := by
  obtain ⟨record, hr, hc⟩ := h
  have hbuild : ∃ e, zipCityIndex toLowerCase zips = .error e := by
    cases hz : zipCityIndex toLowerCase zips with
    | error e => exact ⟨e, rfl⟩
    | ok index =>
      exfalso
      obtain ⟨key, hk, _⟩ :=
        reduce_ok_all toLowerCase zips [] index (fun _ _ => rfl) hz record hr
      simp [cityKey, hc] at hk
  obtain ⟨e, he⟩ := hbuild
  exact ⟨⟨e, he⟩, ⟨e, by simp [startup, he]⟩⟩

theorem missing_city_aborts_startup_witness :
    (∃ record ∈ [seattle98101, cityless00003, seattle98102],
      record.lookup "city" = none) ∧
    (∃ e, zipCityIndex toLowerCaseAscii
      [seattle98101, cityless00003, seattle98102] = .error e) ∧
    (∃ e, startup toLowerCaseAscii
      [seattle98101, cityless00003, seattle98102] = .error e) :=
  ⟨⟨cityless00003, by simp, by rfl⟩,
   missing_city_aborts_startup toLowerCaseAscii
     [seattle98101, cityless00003, seattle98102]
     ⟨cityless00003, by simp, by rfl⟩⟩

/-- C7 as stated fails: the dataset `[blank00002, seattle98101]` contains a
record whose city is the empty string, startup succeeds, and the record is in
the bucket under the empty key. -/
theorem blank_city_startup_succeeds :
    blank00002.lookup "city" = some (.str "") ∧
    startup toLowerCaseAscii [blank00002, seattle98101] =
      .ok ⟨[("", [blank00002]), ("seattle", [seattle98101])]⟩ :=
  ⟨by rfl, by rfl⟩

/-- C7 amended: a record whose city is the empty string does not make startup
fail. The callback never throws on it, on whatever index, and stores it under
the empty key; after a successful startup the record is in the bucket under
the empty key, once per occurrence, and that bucket is the subsequence of the
records with the empty key, in dataset order. -/
theorem blank_city_is_bucketed (toLowerCase : String → String)
    (hempty : toLowerCase "" = "") (record : Record)
    (hc : record.lookup "city" = some (.str "")) :
    (∀ index, reducer toLowerCase index record =
      .ok (index.set "" ((index.lookup "").getD [] ++ [record]))) ∧
    (∀ zips app, startup toLowerCase zips = .ok app → record ∈ zips →
      ∃ bucket, app.zipCityIndex.get "" = .array bucket ∧
        bucket = recordsFor toLowerCase zips "" ∧
        bucket.count record = zips.count record) := by
  have hk : cityKey toLowerCase record = some "" := by simp [cityKey, hc, hempty]
  refine ⟨fun index => reducer_ok_of_cityKey toLowerCase index record "" hk (by decide), ?_⟩
  intro zips app hs hr
  have hz := ((startup_ok_iff _ _ _).1 hs).1
  have hmem : record ∈ recordsFor toLowerCase zips "" :=
    (mem_recordsFor _ _ _ _).2 ⟨hr, hk⟩
  have hget : app.zipCityIndex.get "" = .array (recordsFor toLowerCase zips "") := by
    rw [zipCityIndex_get toLowerCase zips _ hz ""]
    simp [List.ne_nil_of_mem hmem]
  exact ⟨_, hget, rfl, count_recordsFor _ _ _ _ hk⟩

theorem blank_city_is_bucketed_witness :
    toLowerCaseAscii "" = "" ∧
    blank00002.lookup "city" = some (.str "") ∧
    startup toLowerCaseAscii [blank00002, seattle98101] =
      .ok ⟨[("", [blank00002]), ("seattle", [seattle98101])]⟩ ∧
    ∃ bucket,
      IndexObject.get [("", [blank00002]), ("seattle", [seattle98101])] "" =
        .array bucket ∧
      bucket = recordsFor toLowerCaseAscii [blank00002, seattle98101] "" ∧
      bucket.count blank00002 = [blank00002, seattle98101].count blank00002 :=
  ⟨by rfl, by rfl, by rfl,
   (blank_city_is_bucketed toLowerCaseAscii (by rfl) blank00002 (by rfl)).2
     [blank00002, seattle98101]
     ⟨[("", [blank00002]), ("seattle", [seattle98101])]⟩ (by rfl) (by simp)⟩

/-- C8 (empty dataset is fatal): on the empty dataset the index is the empty
object, `zipCityIndex.seattle.length` throws and `app.listen` is not reached;
hence a started server never holds an empty index. -/
theorem empty_dataset_aborts_startup (toLowerCase : String → String) :
    startup toLowerCase [] =
      .error (.typeError "Cannot read properties of undefined (reading 'length')") ∧
    ∀ zips app, startup toLowerCase zips = .ok app → app.zipCityIndex ≠ [] := by
  refine ⟨by rfl, ?_⟩
  intro zips app hs hnil
  have hg := ((startup_ok_iff _ _ _).1 hs).2
  rw [hnil] at hg
  exact hg (by rfl)

theorem empty_dataset_aborts_startup_witness :
    startup toLowerCaseAscii [] =
      .error (.typeError "Cannot read properties of undefined (reading 'length')") ∧
    (App.mk [("seattle", [seattle98101])]).zipCityIndex ≠ [] :=
  ⟨(empty_dataset_aborts_startup toLowerCaseAscii).1,
   (empty_dataset_aborts_startup toLowerCaseAscii).2 [seattle98101]
     ⟨[("seattle", [seattle98101])]⟩ (by rfl)⟩

/-- C9 as stated fails: no route is registered under `/lookup/city/`. With the
dataset `[seattle98101]`, `GET /lookup/city/seattle` matches nothing and is left
to the default responder, although "seattle" is a hit on `/zips/city/`. -/
theorem lookup_path_is_unrouted :
    startup toLowerCaseAscii [seattle98101] =
      .ok ⟨[("seattle", [seattle98101])]⟩ ∧
    dispatch toLowerCaseAscii decodeURIComponentUtf8
        ⟨[("seattle", [seattle98101])]⟩
        ⟨.GET, ["lookup", "city", "seattle"]⟩ = .unrouted ∧
    dispatch toLowerCaseAscii decodeURIComponentUtf8
        ⟨[("seattle", [seattle98101])]⟩
        ⟨.GET, ["zips", "city", "seattle"]⟩ = .json (.array [seattle98101]) :=
  ⟨by rfl, by rfl, by rfl⟩

/-- C9 amended: a `GET` request to `/zips/city/{segment}`, with a non-empty
segment that `decodeURIComponent` decodes to `cityName`, is dispatched to the
city lookup of `cityName`. On a hit the answer is the JSON sequence of the
matching records; on a miss whose lower-cased name is not inherited from
`Object.prototype` it is status 404 with the message 'invalid city name'. A
`GET` request to a path under `/lookup/` matches no route. -/
theorem zips_city_route_dispatch (toLowerCase : String → String)
    (decodeURIComponent : String → Option String)
    (zips : List Record) (app : App)
    (h : startup toLowerCase zips = .ok app)
    (segment cityName : String) (hne : segment ≠ "")
    (hd : decodeURIComponent segment = some cityName) :
    dispatch toLowerCase decodeURIComponent app
        ⟨.GET, ["zips", "city", segment]⟩ =
      cityHandler toLowerCase app.zipCityIndex cityName ∧
    (recordsFor toLowerCase zips (toLowerCase cityName) ≠ [] →
      dispatch toLowerCase decodeURIComponent app
          ⟨.GET, ["zips", "city", segment]⟩ =
        .json (.array (recordsFor toLowerCase zips (toLowerCase cityName)))) ∧
    (recordsFor toLowerCase zips (toLowerCase cityName) = [] →
      toLowerCase cityName ∉ objectPrototypeKeys →
      dispatch toLowerCase decodeURIComponent app
          ⟨.GET, ["zips", "city", segment]⟩ =
        .send 404 "invalid city name") ∧
    (∀ rest, dispatch toLowerCase decodeURIComponent app
        ⟨.GET, "lookup" :: rest⟩ = .unrouted) := by
  have hz := ((startup_ok_iff _ _ _).1 h).1
  have hg := zipCityIndex_get toLowerCase zips _ hz (toLowerCase cityName)
  rw [dispatch_zips_city toLowerCase decodeURIComponent app segment cityName hne hd]
  refine ⟨rfl, fun hhit => ?_, fun hmiss hp => ?_,
    dispatch_lookup_unrouted toLowerCase decodeURIComponent app⟩
  · exact cityHandler_of_array _ _ _ _ (by simpa [hhit] using hg)
  · exact cityHandler_of_undefined _ _ _ (by simpa [hmiss, hp] using hg)

theorem zips_city_route_dispatch_witness :
    startup toLowerCaseAscii [seattle98101, x1, seattle98102] =
      .ok ⟨[("seattle", [seattle98101, seattle98102]), ("x", [x1])]⟩ ∧
    "SE%41TTLE" ≠ "" ∧
    decodeURIComponentUtf8 "SE%41TTLE" = some "SEATTLE" ∧
    dispatch toLowerCaseAscii decodeURIComponentUtf8
        ⟨[("seattle", [seattle98101, seattle98102]), ("x", [x1])]⟩
        ⟨.GET, ["zips", "city", "SE%41TTLE"]⟩ =
      .json (.array (recordsFor toLowerCaseAscii
        [seattle98101, x1, seattle98102] (toLowerCaseAscii "SEATTLE"))) :=
  ⟨by rfl, by decide, by rfl,
   (zips_city_route_dispatch toLowerCaseAscii decodeURIComponentUtf8
      [seattle98101, x1, seattle98102]
      ⟨[("seattle", [seattle98101, seattle98102]), ("x", [x1])]⟩ (by rfl)
      "SE%41TTLE" "SEATTLE" (by decide) (by rfl)).2.1 (by decide)⟩

end NodeZip

namespace NodeMongo

/-- C10 (task creation validates before storing): `store.insert` is called if
and only if the task is constructed and `validate` returns no error. When
`validate` returns an error the reply is status 400 with the error's message,
no call of the store is made and the store is unchanged. When it returns none,
`store.insert` is called exactly once, with the task, and the reply is the JSON
of that task unless `insert` rejects. An exception from the constructor, from
`validate` or from `insert` goes to `next` and no other reply is sent. -/
theorem post_validates_before_insert {Body Task Invalid Err Store : Type}
    (env : Env Body Task Invalid Err Store) (store : Store) (body : Body) :
    ((postTask env store body).inserts ≠ [] ↔
      ∃ task, env.newTask body = .ok task ∧
        (env.validate task).2 = .ok none) ∧
    (∀ task err, env.newTask body = .ok task →
      (env.validate task).2 = .ok (some err) →
      (postTask env store body).reply = .status400 (env.message err) ∧
      (postTask env store body).inserts = [] ∧
      (postTask env store body).store = store) ∧
    (∀ task, env.newTask body = .ok task →
      (env.validate task).2 = .ok none →
      (postTask env store body).inserts = [(env.validate task).1] ∧
      (postTask env store body).store =
        (env.insert store (env.validate task).1).1 ∧
      (postTask env store body).reply =
        match (env.insert store (env.validate task).1).2.2 with
        | none => .json (env.insert store (env.validate task).1).2.1
        | some e => .next e) ∧
    (∀ e, env.newTask body = .error e →
      (postTask env store body).reply = .next e ∧
      (postTask env store body).inserts = [] ∧
      (postTask env store body).store = store) ∧
    (∀ task e, env.newTask body = .ok task →
      (env.validate task).2 = .error e →
      (postTask env store body).reply = .next e ∧
      (postTask env store body).inserts = [] ∧
      (postTask env store body).store = store) := by
  cases hn : env.newTask body with
  | error e0 =>
    have hout : postTask env store body = ⟨store, [], .next e0⟩ := by
      simp only [postTask, hn]
    rw [hout]
    refine ⟨⟨fun h => absurd rfl h, ?_⟩, ?_, ?_, ?_, ?_⟩
    · rintro ⟨task, ht, _⟩; cases ht
    · intro task err ht; cases ht
    · intro task ht; cases ht
    · intro e he; cases he; exact ⟨rfl, rfl, rfl⟩
    · intro task e ht; cases ht
  | ok task0 =>
    rcases hv : env.validate task0 with ⟨task1, result⟩
    cases result with
    | error e1 =>
      have hout : postTask env store body = ⟨store, [], .next e1⟩ := by
        simp only [postTask, hn, hv]
      rw [hout]
      refine ⟨⟨fun h => absurd rfl h, ?_⟩, ?_, ?_, ?_, ?_⟩
      · rintro ⟨task, ht, hr⟩; cases ht; rw [hv] at hr; cases hr
      · intro task err ht hr; cases ht; rw [hv] at hr; cases hr
      · intro task ht hr; cases ht; rw [hv] at hr; cases hr
      · intro e he; cases he
      · intro task e ht hr; cases ht; rw [hv] at hr; cases hr
        exact ⟨rfl, rfl, rfl⟩
    | ok verdict =>
      cases verdict with
      | some err1 =>
        have hout : postTask env store body =
            ⟨store, [], .status400 (env.message err1)⟩ := by
          simp only [postTask, hn, hv]
        rw [hout]
        refine ⟨⟨fun h => absurd rfl h, ?_⟩, ?_, ?_, ?_, ?_⟩
        · rintro ⟨task, ht, hr⟩; cases ht; rw [hv] at hr; cases hr
        · intro task err ht hr; cases ht; rw [hv] at hr; cases hr
          exact ⟨rfl, rfl, rfl⟩
        · intro task ht hr; cases ht; rw [hv] at hr; cases hr
        · intro e he; cases he
        · intro task e ht hr; cases ht; rw [hv] at hr; cases hr
      | none =>
        rcases hi : env.insert store task1 with ⟨store1, task2, rejection⟩
        have key : ∀ task, Except.ok task0 = (Except.ok task : Except Err Task) →
            env.validate task = (task1, .ok none) := by
          intro task ht; cases ht; exact hv
        cases rejection with
        | none =>
          have hout : postTask env store body = ⟨store1, [task1], .json task2⟩ := by
            simp only [postTask, hn, hv, hi]
          rw [hout]
          refine ⟨⟨fun _ => ⟨task0, rfl, by rw [hv]⟩, fun _ => by simp⟩, ?_, ?_, ?_, ?_⟩
          · intro task err ht hr; rw [key task ht] at hr; cases hr
          · intro task ht _; rw [key task ht]; simp [hi]
          · intro e he; cases he
          · intro task e ht hr; rw [key task ht] at hr; cases hr
        | some e2 =>
          have hout : postTask env store body = ⟨store1, [task1], .next e2⟩ := by
            simp only [postTask, hn, hv, hi]
          rw [hout]
          refine ⟨⟨fun _ => ⟨task0, rfl, by rw [hv]⟩, fun _ => by simp⟩, ?_, ?_, ?_, ?_⟩
          · intro task err ht hr; rw [key task ht] at hr; cases hr
          · intro task ht _; rw [key task ht]; simp [hi]
          · intro e he; cases he
          · intro task e ht hr; rw [key task ht] at hr; cases hr

theorem post_validates_before_insert_witness :
    (postTask sampleEnv [] "").reply = .status400 "title is required" ∧
    (postTask sampleEnv [] "").inserts = [] ∧
    (postTask sampleEnv [] "").store = [] ∧
    (postTask sampleEnv [] "buy milk").inserts = [⟨"buy milk", none⟩] ∧
    (postTask sampleEnv [] "buy milk").store = [⟨"buy milk", some 0⟩] ∧
    (postTask sampleEnv [] "buy milk").reply = .json ⟨"buy milk", some 0⟩ :=
  ⟨((post_validates_before_insert sampleEnv [] "").2.1
      ⟨"", none⟩ "title is required" (by rfl) (by rfl)).1,
   ((post_validates_before_insert sampleEnv [] "").2.1
      ⟨"", none⟩ "title is required" (by rfl) (by rfl)).2.1,
   ((post_validates_before_insert sampleEnv [] "").2.1
      ⟨"", none⟩ "title is required" (by rfl) (by rfl)).2.2,
   ((post_validates_before_insert sampleEnv [] "buy milk").2.2.1
      ⟨"buy milk", none⟩ (by rfl) (by rfl)).1,
   ((post_validates_before_insert sampleEnv [] "buy milk").2.2.1
      ⟨"buy milk", none⟩ (by rfl) (by rfl)).2.1,
   ((post_validates_before_insert sampleEnv [] "buy milk").2.2.1
      ⟨"buy milk", none⟩ (by rfl) (by rfl)).2.2⟩

end NodeMongo
